import Mathlib

/-!
# treehole_next: punishment ledger and tag temperature

A shallow embedding of `models/punishment.go` (`Punishment.Create`) and of the
tag loop of `apis/hole.go` (`CreateHole`).

Modelling conventions
* `time.Time` is an integer number of nanoseconds, `Time.Add` is addition.
* `time.Duration` is an `int64` number of nanoseconds; the product that builds
  `diffDuration` wraps modulo `2^64` as Go integer arithmetic does.
* A Go pointer field (`*time.Duration`, `*int`, `*time.Time`) is an `Option`;
  `nil` is `none`.
* The relational store is explicit state: a user table and the list of rows of
  the punishment table. A transaction either commits a new store or rolls back.
* The storage calls follow the object-relational mapper the sources import
  (`gorm.io/gorm`): queries skip soft-deleted rows; `Updates` given a struct
  writes only its non-zero fields; a struct passed to `Where` constrains only
  its non-zero fields; `Create` inserts all fields; the `uniqueIndex` tag on
  `FloorID` makes the table refuse a second row for a floor.
-/

namespace Treehole

/-- One nanosecond-valued hour, `time.Hour`. -/
def Hour : Int := 3600000000000

/-- Two's complement wrap-around of a mathematical integer into `int64`. -/
def wrapInt64 (x : Int) : Int := (x + 2 ^ 63) % 2 ^ 64 - 2 ^ 63

/-- Row of the `punishment` table, `type Punishment struct`. `DeletedAt` is kept as
the flag "soft deleted"; `CreatedAt`, `UpdatedAt` and the preloaded `Floor` and
`Division` associations are never read by `Create` and are left out. -/
structure Punishment where
  ID : Int
  DeletedAt : Bool
  StartTime : Int
  EndTime : Int
  Duration : Option Int
  Day : Int
  UserID : Int
  MadeBy : Int
  FloorID : Option Int
  DivisionID : Int
  Reason : String
  deriving DecidableEq, Repr

/-- Modelled from the spec: the `User` type is declared outside the given sources.
It carries the offence counter and the ban-until mapping from division to an
optional timestamp (`banUntil`, the Go field `BanDivision map[int]*time.Time`).
A missing key and a nil entry both read as `none`, exactly as the test
`user.BanDivision[d] == nil` sees them. -/
structure User where
  ID : Int
  OffenceCount : Int
  BanDivision : Int → Option Int

/-- The zero value `User{}` that `Create` returns when the user row is not found. -/
def User.zero : User := { ID := 0, OffenceCount := 0, BanDivision := fun _ => none }

/-- Assignment `user.BanDivision[division] = &t`. -/
def User.setBan (user : User) (division : Int) (t : Int) : User :=
  { user with BanDivision := fun d => if d = division then some t else user.BanDivision d }

/-- The relational store seen by `Create`: the user table keyed by primary key
and the rows of the punishment table. -/
structure DB where
  users : Int → Option User
  punishments : List Punishment

/-- Errors the storage layer reports to `Create`. -/
inductive DBError where
  | ErrRecordNotFound
  | ErrDuplicatedKey
  deriving DecidableEq, Repr

/-- Result of `Create`: `ok` is `(&user, nil)` with the committed store, `error`
is `(&user, err)` after a rollback (the store keeps its old value), `nilDeref`
is the runtime fault of dereferencing a nil `*time.Duration`. -/
inductive Outcome where
  | ok (db : DB) (user : User)
  | error (err : DBError) (user : User)
  | nilDeref

/-- `tx.Clauses(clause.Locking ...).Take(&user, punishment.UserID)`: primary-key
lookup; the loaded struct carries the key it was looked up with. -/
def DB.takeUser (db : DB) (userID : Int) : Option User :=
  (db.users userID).map fun u => { u with ID := userID }

/-- `tx.Where("user_id = ? and floor_id = ?", user.ID, punishment.FloorID).Take(..)`.
Soft-deleted rows are invisible to the query, and a nil `FloorID` binds SQL
`NULL`, which no row equals. -/
def DB.takePrevious (db : DB) (userID : Int) (floorID : Option Int) : Option Punishment :=
  db.punishments.find? fun p =>
    !p.DeletedAt && floorID.isSome && p.UserID == userID && p.FloorID == floorID

/-- The comparison `previousPunishment.Duration == punishment.Duration` of two
`*time.Duration` values. It is a pointer comparison: the loaded record owns a
pointer freshly allocated by the row scan, so it equals the receiver's pointer
only when both are nil. -/
def durationPtrEq (previous current : Option Int) : Bool :=
  previous.isNone && current.isNone

/-- `time.Duration(punishment.Day-previousPunishment.Day) * 24 * time.Hour`. -/
def diffDuration (day previousDay : Int) : Int :=
  wrapInt64 (wrapInt64 (wrapInt64 (day - previousDay) * 24) * Hour)

/-- Column-wise effect of `tx.Updates(&previousPunishment)` on one stored row:
an update from a struct writes exactly the non-zero fields of the struct. The
zero `time.Time` is an instant of year 1, which no punishment carries, so both
times are written; `DeletedAt` is zero in a record that the query returned. -/
def Punishment.mergeNonZero (row p : Punishment) : Punishment :=
  { ID := row.ID
    DeletedAt := row.DeletedAt
    StartTime := p.StartTime
    EndTime := p.EndTime
    Duration := if p.Duration.isSome then p.Duration else row.Duration
    Day := if p.Day = 0 then row.Day else p.Day
    UserID := if p.UserID = 0 then row.UserID else p.UserID
    MadeBy := if p.MadeBy = 0 then row.MadeBy else p.MadeBy
    FloorID := if p.FloorID.isSome then p.FloorID else row.FloorID
    DivisionID := if p.DivisionID = 0 then row.DivisionID else p.DivisionID
    Reason := if p.Reason = "" then row.Reason else p.Reason }

/-- `tx.Updates(&previousPunishment)`: `UPDATE punishment SET .. WHERE id = ?`
restricted to rows that are not soft deleted. -/
def DB.updates (db : DB) (p : Punishment) : DB :=
  { db with punishments :=
      db.punishments.map fun row =>
        if row.ID = p.ID ∧ row.DeletedAt = false then row.mergeNonZero p else row }

/-- Largest primary key in use; the auto-increment counter is past it. -/
def maxID (rows : List Punishment) : Int :=
  rows.foldr (fun row m => max row.ID m) 0

/-- `tx.Create(&punishment)`: insert of a row. A zero `ID` receives the next
auto-increment value. The insert is refused when the primary key is taken or
when the unique index on `floor_id` already holds the (non-null) floor. -/
def DB.create (db : DB) (p : Punishment) : Except DBError DB :=
  let p := if p.ID = 0 then { p with ID := maxID db.punishments + 1 } else p
  if p.ID ∈ db.punishments.map (·.ID) then .error .ErrDuplicatedKey
  else if p.FloorID.isSome ∧ p.FloorID ∈ db.punishments.map (·.FloorID) then
    .error .ErrDuplicatedKey
  else .ok { db with punishments := db.punishments ++ [p] }

/-- `tx.Select("BanDivision", "OffenceCount").Save(&user)`: only the two selected
columns of the user row are written. -/
def DB.saveUser (db : DB) (user : User) : DB :=
  { db with users := fun i =>
      if i = user.ID then
        (db.users i).map fun u =>
          { u with BanDivision := user.BanDivision, OffenceCount := user.OffenceCount }
      else db.users i }

/-- The method `func (punishment *Punishment) Create() (*User, error)`; `now` is
the value of `time.Now()` inside the transaction. -/
def Punishment.Create (punishment : Punishment) (now : Int) (db : DB) : Outcome :=
  match db.takeUser punishment.UserID with
  | none => .error .ErrRecordNotFound User.zero
  | some user =>
    match db.takePrevious user.ID punishment.FloorID with
    | some previousPunishment =>
      -- same as before, do nothing
      if durationPtrEq previousPunishment.Duration punishment.Duration
          && previousPunishment.Day == punishment.Day then
        .ok db user
      else
        -- different duration, revoke previous punishment
        let diff := diffDuration punishment.Day previousPunishment.Day
        match punishment.Duration with
        | none => .nilDeref
        | some d =>
          let previousPunishment : Punishment :=
            { previousPunishment with
              Duration := punishment.Duration
              Day := punishment.Day
              EndTime := previousPunishment.StartTime + d
              Reason := punishment.Reason
              MadeBy := punishment.MadeBy
              DivisionID := punishment.DivisionID }
          let user :=
            match user.BanDivision punishment.DivisionID with
            | none => user.setBan punishment.DivisionID previousPunishment.EndTime
            | some t => user.setBan punishment.DivisionID (t + diff)
          .ok ((db.updates previousPunishment).saveUser user) user
    | none =>
      let user := { user with OffenceCount := user.OffenceCount + 1 }
      match punishment.Duration with
      | none => .nilDeref
      | some d =>
        let punishment := { punishment with StartTime := now, EndTime := now + d }
        let user :=
          match user.BanDivision punishment.DivisionID with
          | none => user.setBan punishment.DivisionID punishment.EndTime
          | some t => user.setBan punishment.DivisionID (t + d)
        match db.create punishment with
        | .error err => .error err user
        | .ok db => .ok (db.saveUser user) user

/-- The store in effect after a call: the committed one, or the old one when the
transaction rolled back or the call faulted. -/
def Outcome.after (o : Outcome) (db : DB) : DB :=
  match o with
  | .ok db' _ => db'
  | .error _ _ => db
  | .nilDeref => db

/-- Whether the call returned `err == nil`. -/
def Outcome.succeeded : Outcome → Bool
  | .ok _ _ => true
  | _ => false

/-- Whether the call ended in a nil-pointer dereference. -/
def Outcome.faulted : Outcome → Bool
  | .nilDeref => true
  | _ => false

/-- The value returned as `*User` when the call returned at all. -/
def Outcome.user? : Outcome → Option User
  | .ok _ user => some user
  | .error _ user => some user
  | .nilDeref => none

/-- Stored ban-until entry of a user for a division. -/
def DB.banUntil (db : DB) (userID division : Int) : Option Int :=
  (db.users userID).bind fun u => u.BanDivision division

/-- Stored offence counter of a user. -/
def DB.offenceCount (db : DB) (userID : Int) : Option Int :=
  (db.users userID).map fun u => u.OffenceCount

/-- Primary key of the punishment table: no two rows share an `ID`. -/
def DB.PrimaryKey (db : DB) : Prop :=
  (db.punishments.map (·.ID)).Nodup

/-- Per-floor uniqueness: no two rows (soft-deleted ones included) reference the
same floor. Rows without a floor reference none. -/
def DB.FloorUnique (db : DB) : Prop :=
  (db.punishments.filterMap (·.FloorID)).Nodup

/-! ## Tag temperature in `CreateHole` -/

/-- Modelled from the spec: the `Tag` type is declared outside the given sources.
A tag is identified by its unique `name` and carries the popularity counter
`temperature`. The tag table is the list of its rows in primary-key order. -/
structure Tag where
  Name : String
  Temperature : Int
  deriving DecidableEq, Repr

/-- `tx.Where(Tag{Name: name}).FirstOrCreate(&hole.Tags[i])`: the first row (in
primary-key order) that meets the struct condition, else a new row built from
the condition. A struct condition constrains only its non-zero fields, so the
empty name constrains nothing. Returns the table and the loaded tag. -/
def firstOrCreate (table : List Tag) (name : String) : List Tag × Tag :=
  match table.find? (fun t => name == "" || t.Name == name) with
  | some t => (table, t)
  | none => (table ++ [{ Name := name, Temperature := 0 }], { Name := name, Temperature := 0 })

/-- The loop `for i := 0; i < len(hole.Tags); i++` of `CreateHole`: each tag is
loaded or created, and its in-memory copy gets `Temperature += 1`. Returns the
table and `hole.Tags`. -/
def bindTags (table : List Tag) : List String → List Tag × List Tag
  | [] => (table, [])
  | name :: rest =>
    let loaded := firstOrCreate table name
    let tag : Tag := { loaded.2 with Temperature := loaded.2.Temperature + 1 }
    let bound := bindTags loaded.1 rest
    (bound.1, tag :: bound.2)

/-- Upsert of one associated tag by `Create` under `FullSaveAssociations`: the
stored row of that tag takes every field of the in-memory copy. -/
def upsertTag (table : List Tag) (tag : Tag) : List Tag :=
  if table.any (fun t => t.Name == tag.Name) then
    table.map fun t => if t.Name = tag.Name then tag else t
  else table ++ [tag]

/-- Effect of a successful `CreateHole` on the tag table, for the tag names
`body.Tags[i].Name` in order: the loop, then the save of the hole together with
its associated tags. The hole and floor rows of the same transaction live in
other tables and do not touch this one. -/
def CreateHole (table : List Tag) (names : List String) : List Tag :=
  let bound := bindTags table names
  bound.2.foldl upsertTag bound.1

/-- Stored temperature of the tag with the given name. -/
def temperatureOf (table : List Tag) (name : String) : Option Int :=
  (table.find? fun t => t.Name == name).map (·.Temperature)

/-! ## Concrete stores and receivers used below -/

/-- Twenty-four hours in nanoseconds. -/
def oneDay : Int := 24 * Hour

/-- A receiver for user 1, floor 7, division 1 with all other fields zero. -/
def baseRequest : Punishment :=
  { ID := 0, DeletedAt := false, StartTime := 0, EndTime := 0, Duration := none, Day := 0,
    UserID := 1, MadeBy := 9, FloorID := some 7, DivisionID := 1, Reason := "spam" }

/-- A store holding user 1 only, with the given counter and ban map. -/
def storeOf (offenceCount : Int) (ban : Int → Option Int) (rows : List Punishment) : DB :=
  { users := fun i =>
      if i = 1 then some { ID := 1, OffenceCount := offenceCount, BanDivision := ban } else none
    punishments := rows }

/-- Ban map with a single entry, for division 1. -/
def banDivisionOne (t : Int) : Int → Option Int :=
  fun d => if d = 1 then some t else none

/-- Stored punishment of user 1 on floor 7, division 1. -/
def storedRow (startTime duration day : Int) : Punishment :=
  { ID := 1, DeletedAt := false, StartTime := startTime, EndTime := startTime + duration,
    Duration := some duration, Day := day, UserID := 1, MadeBy := 9, FloorID := some 7,
    DivisionID := 1, Reason := "spam" }

/-- User 1 carries a ban for division 1 that ran out on day 10; no punishment rows. -/
def expiredStore : DB := storeOf 1 (banDivisionOne (10 * oneDay)) []

/-- Three days on floor 7. -/
def threeDays : Punishment := { baseRequest with Duration := some (3 * oneDay), Day := 3 }

/-- User 1 without any ban and without punishment rows. -/
def cleanStore : DB := storeOf 0 (fun _ => none) []

/-- Two days on floor 7. -/
def twoDays : Punishment := { baseRequest with Duration := some (2 * oneDay), Day := 2 }

/-- Three days on floor 8. -/
def threeDaysFloor8 : Punishment := { threeDays with FloorID := some 8 }

/-- User 1 serving the three days of `storedRow 0 (3 * oneDay) 3`. -/
def servingStore : DB := storeOf 1 (banDivisionOne (3 * oneDay)) [storedRow 0 (3 * oneDay) 3]

/-- The same three days on floor 7, resent by another admin with another reason
and for division 2. -/
def resentThreeDays : Punishment :=
  { threeDays with MadeBy := 8, Reason := "retry", DivisionID := 2 }

/-- Five days on floor 7. -/
def fiveDays : Punishment := { baseRequest with Duration := some (5 * oneDay), Day := 5 }

/-- User 1 banned until day 10 by a two-day punishment that started on day 8. -/
def twoDayStore : DB :=
  storeOf 1 (banDivisionOne (10 * oneDay)) [storedRow (8 * oneDay) (2 * oneDay) 2]

/-- Twelve hours on floor 7: a duration below one day, so `Day` is zero. -/
def twelveHours : Punishment := { baseRequest with Duration := some (12 * Hour), Day := 0 }

/-- A receiver whose `Duration` pointer is nil. -/
def noDuration : Punishment := baseRequest

/-- User 1 banned until day 10, without punishment rows. -/
def bannedStore : DB := storeOf 0 (banDivisionOne (10 * oneDay)) []

/-- A negative duration of two days on floor 7. -/
def minusTwoDays : Punishment := { baseRequest with Duration := some (-(2 * oneDay)), Day := -2 }

/-- Users 1 and 2 without bans; floor 7 already carries the three-day punishment
of user 1. -/
def otherUserStore : DB :=
  { users := fun i =>
      if i = 1 ∨ i = 2 then some { ID := i, OffenceCount := 0, BanDivision := fun _ => none }
      else none
    punishments := [storedRow 0 (3 * oneDay) 3] }

/-- Three days on floor 7 for user 2. -/
def threeDaysUser2 : Punishment := { threeDays with UserID := 2 }

/-- A negative duration of one day on floor 7. -/
def minusOneDay : Punishment := { baseRequest with Duration := some (-oneDay), Day := -1 }

/-- The longest whole-day duration that fits `int64`: 106751 days on floor 7. -/
def longestDays : Punishment :=
  { baseRequest with Duration := some (106751 * oneDay), Day := 106751 }

/-- Five days on floor 7 sent with a day count of 106755. -/
def fiveDaysHugeDay : Punishment := { fiveDays with Day := 106755 }

/-! ## Arithmetic of durations -/

theorem wrapInt64_of_fits {x : Int} (hlo : -(2 ^ 63) ≤ x) (hhi : x < 2 ^ 63) :
    wrapInt64 x = x := by
  unfold wrapInt64
  omega

theorem diffDuration_of_fits {day previousDay : Int}
    (hlo : -106751 ≤ day - previousDay) (hhi : day - previousDay ≤ 106751) :
    diffDuration day previousDay = (day - previousDay) * (24 * Hour) := by
  unfold diffDuration Hour
  rw [wrapInt64_of_fits (x := day - previousDay) (by omega) (by omega),
    wrapInt64_of_fits (x := (day - previousDay) * 24) (by omega) (by omega),
    wrapInt64_of_fits (by omega) (by omega)]
  ring

theorem diffDuration_self (day : Int) : diffDuration day day = 0 := by
  simp [diffDuration, wrapInt64]

/-! ## Storage primitives -/

theorem le_maxID {rows : List Punishment} {r : Punishment} (h : r ∈ rows) :
    r.ID ≤ maxID rows := by
  induction rows with
  | nil => cases h
  | cons a rest ih =>
    simp only [maxID, List.foldr_cons]
    rcases List.mem_cons.mp h with rfl | h
    · exact le_max_left _ _
    · exact le_trans (ih h) (le_max_right _ _)

theorem maxID_succ_not_mem (rows : List Punishment) :
    maxID rows + 1 ∉ rows.map (·.ID) := by
  intro h
  obtain ⟨r, hr, hid⟩ := List.mem_map.mp h
  have := le_maxID hr
  omega

theorem takePrevious_eq_none_of_free (db : DB) (userID : Int) (floorID : Option Int)
    (hfree : ∀ f, floorID = some f → some f ∉ db.punishments.map (·.FloorID)) :
    db.takePrevious userID floorID = none := by
  unfold DB.takePrevious
  rw [List.find?_eq_none]
  intro p hp
  cases hf : floorID with
  | none => simp
  | some f =>
    have := hfree f hf
    have hne : p.FloorID ≠ some f := fun h => this (List.mem_map.mpr ⟨p, hp, h⟩)
    simp [hne]

theorem create_of_free (db : DB) (p : Punishment) (hid : p.ID = 0)
    (hfree : ∀ f, p.FloorID = some f → some f ∉ db.punishments.map (·.FloorID)) :
    db.create p =
      .ok { db with punishments := db.punishments ++ [{ p with ID := maxID db.punishments + 1 }] } := by
  unfold DB.create
  simp only [hid, if_true]
  rw [if_neg (maxID_succ_not_mem _), if_neg]
  rintro ⟨hsome, hmem⟩
  obtain ⟨f, hf⟩ := Option.isSome_iff_exists.mp hsome
  exact hfree f hf (hf ▸ hmem)


/-! ## The new-punishment branch -/

theorem Create_new (db : DB) (user : User) (p : Punishment) (now d : Int)
    (huser : db.users p.UserID = some user) (hd : p.Duration = some d) (hid : p.ID = 0)
    (hfree : ∀ f, p.FloorID = some f → some f ∉ db.punishments.map (·.FloorID)) :
    ∃ db' user', p.Create now db = .ok db' user' ∧
      db'.punishments = db.punishments ++
        [{ p with ID := maxID db.punishments + 1, StartTime := now, EndTime := now + d }] ∧
      db'.users p.UserID = some { user with
        OffenceCount := user.OffenceCount + 1, BanDivision := user'.BanDivision } ∧
      (∀ i, i ≠ p.UserID → db'.users i = db.users i) ∧
      user'.ID = p.UserID ∧
      user'.OffenceCount = user.OffenceCount + 1 ∧
      user'.BanDivision p.DivisionID = some ((user.BanDivision p.DivisionID).getD now + d) ∧
      (∀ div, div ≠ p.DivisionID → user'.BanDivision div = user.BanDivision div) := by
  have hprev : db.takePrevious p.UserID p.FloorID = none :=
    takePrevious_eq_none_of_free db _ _ hfree
  have hcreate := create_of_free db
    { p with StartTime := now, EndTime := now + d, Duration := some d } hid hfree
  unfold Punishment.Create
  simp only [DB.takeUser, huser, Option.map_some', hprev, hd, hcreate]
  cases hban : user.BanDivision p.DivisionID with
  | none =>
    refine ⟨_, _, rfl, rfl, ?_, ?_, rfl, rfl, ?_, ?_⟩
    · simp [DB.saveUser, User.setBan, huser]
    · intro i hi; simp [DB.saveUser, User.setBan, hi]
    · simp [User.setBan]
    · intro div hdiv; simp [User.setBan, hdiv]
  | some t =>
    refine ⟨_, _, rfl, rfl, ?_, ?_, rfl, rfl, ?_, ?_⟩
    · simp [DB.saveUser, User.setBan, huser]
    · intro i hi; simp [DB.saveUser, User.setBan, hi]
    · simp [User.setBan]
    · intro div hdiv; simp [User.setBan, hdiv]


/-! ## The correction branch -/

theorem Create_on_previous (db : DB) (user : User) (p prev : Punishment) (now d : Int)
    (huser : db.users p.UserID = some user)
    (hprev : db.takePrevious p.UserID p.FloorID = some prev)
    (hd : p.Duration = some d) :
    ∃ db' user', p.Create now db = .ok db' user' ∧
      db'.punishments = db.punishments.map (fun row =>
        if row.ID = prev.ID ∧ row.DeletedAt = false then
          row.mergeNonZero { prev with
            Duration := some d, Day := p.Day, EndTime := prev.StartTime + d,
            Reason := p.Reason, MadeBy := p.MadeBy, DivisionID := p.DivisionID }
        else row) ∧
      db'.users p.UserID = some { user with BanDivision := user'.BanDivision } ∧
      (∀ i, i ≠ p.UserID → db'.users i = db.users i) ∧
      user'.ID = p.UserID ∧
      user'.OffenceCount = user.OffenceCount ∧
      user'.BanDivision p.DivisionID =
        some (match user.BanDivision p.DivisionID with
          | none => prev.StartTime + d
          | some t => t + diffDuration p.Day prev.Day) ∧
      (∀ div, div ≠ p.DivisionID → user'.BanDivision div = user.BanDivision div) := by
  unfold Punishment.Create
  simp only [DB.takeUser, huser, Option.map_some', hprev, hd, durationPtrEq, Option.isNone_some,
    Bool.and_false, Bool.false_and, Bool.false_eq_true, if_false]
  cases hban : user.BanDivision p.DivisionID with
  | none =>
    refine ⟨_, _, rfl, rfl, ?_, ?_, rfl, rfl, ?_, ?_⟩
    · simp [DB.saveUser, DB.updates, User.setBan, huser]
    · intro i hi; simp [DB.saveUser, DB.updates, User.setBan, hi]
    · simp [User.setBan]
    · intro div hdiv; simp [User.setBan, hdiv]
  | some t =>
    refine ⟨_, _, rfl, rfl, ?_, ?_, rfl, rfl, ?_, ?_⟩
    · simp [DB.saveUser, DB.updates, User.setBan, huser]
    · intro i hi; simp [DB.saveUser, DB.updates, User.setBan, hi]
    · simp [User.setBan]
    · intro div hdiv; simp [User.setBan, hdiv]


/-! ## Reading the stored user -/

theorem exists_user_of_offenceCount {db : DB} {userID n : Int}
    (h : db.offenceCount userID = some n) :
    ∃ user, db.users userID = some user ∧ user.OffenceCount = n := by
  unfold DB.offenceCount at h
  cases hu : db.users userID with
  | none => simp [hu] at h
  | some user => exact ⟨user, rfl, by simpa [hu] using h⟩

theorem banUntil_of_user {db : DB} {userID : Int} {user : User}
    (h : db.users userID = some user) (division : Int) :
    db.banUntil userID division = user.BanDivision division := by
  simp [DB.banUntil, h]

theorem offenceCount_of_user {db : DB} {userID : Int} {user : User}
    (h : db.users userID = some user) :
    db.offenceCount userID = some user.OffenceCount := by
  simp [DB.offenceCount, h]

/-- C2: a user without a ban entry in a division and with offence counter `n`,
punished at `t1` for `d1` on floor `f1` and then at `t2` for `d2` on another floor
`f2` (both floors free of punishments, both receivers new), ends with ban-until
`t1 + d1 + d2` and counter `n + 2`; both calls succeed. This holds for all
durations and times, so in particular for positive durations and
`t1 ≤ t2 < t1 + d1`. -/
theorem Create_accumulates (db : DB) (r1 r2 : Punishment) (t1 t2 d1 d2 f1 f2 n : Int)
    (hcount : db.offenceCount r1.UserID = some n)
    (hnoban : db.banUntil r1.UserID r1.DivisionID = none)
    (huser : r2.UserID = r1.UserID) (hdiv : r2.DivisionID = r1.DivisionID)
    (hd1 : r1.Duration = some d1) (hd2 : r2.Duration = some d2)
    (hf1 : r1.FloorID = some f1) (hf2 : r2.FloorID = some f2) (hne : f1 ≠ f2)
    (hfree1 : some f1 ∉ db.punishments.map (·.FloorID))
    (hfree2 : some f2 ∉ db.punishments.map (·.FloorID))
    (hid1 : r1.ID = 0) (hid2 : r2.ID = 0) :
    (r1.Create t1 db).succeeded = true ∧
    (r2.Create t2 ((r1.Create t1 db).after db)).succeeded = true ∧
    ((r2.Create t2 ((r1.Create t1 db).after db)).after ((r1.Create t1 db).after db)).banUntil
        r1.UserID r1.DivisionID = some (t1 + d1 + d2) ∧
    ((r2.Create t2 ((r1.Create t1 db).after db)).after ((r1.Create t1 db).after db)).offenceCount
        r1.UserID = some (n + 2) := by
  obtain ⟨user, hu, hn⟩ := exists_user_of_offenceCount hcount
  rw [banUntil_of_user hu] at hnoban
  obtain ⟨db1, u1, hc1, hrows1, hu1, -, -, hoc1, hban1, -⟩ :=
    Create_new db user r1 t1 d1 hu hd1 hid1
      (by intro f hf; rw [hf1] at hf; cases hf; exact hfree1)
  rw [hnoban] at hban1
  have hfree2' : ∀ f, r2.FloorID = some f → some f ∉ db1.punishments.map (·.FloorID) := by
    intro f hf
    rw [hf2] at hf
    cases hf
    rw [hrows1]
    simp only [List.map_append, List.map_cons, List.map_nil, List.mem_append,
      List.mem_singleton, not_or]
    exact ⟨hfree2, by rw [hf1]; intro h; exact hne (Option.some.inj h).symm⟩
  rw [← huser] at hu1
  obtain ⟨db2, u2, hc2, -, hu2, -, -, hoc2, hban2, -⟩ :=
    Create_new db1 _ r2 t2 d2 hu1 hd2 hid2 hfree2'
  rw [hc1]
  simp only [Outcome.after, Outcome.succeeded, hc2, true_and]
  rw [huser] at hu2
  rw [banUntil_of_user hu2, offenceCount_of_user hu2]
  simp only at hban2 ⊢
  rw [hdiv, hban1] at hban2
  refine ⟨?_, ?_⟩
  · rw [hban2]; simp
  · simp [hn]; omega


/-- C2 at a concrete input: two days on floor 7 at time 0, then three days on
floor 8 one day later, give ban-until day 5 and two offences. -/
theorem Create_accumulates_witness :
    cleanStore.offenceCount 1 = some 0 ∧ cleanStore.banUntil 1 1 = none ∧
    ((threeDaysFloor8.Create oneDay ((twoDays.Create 0 cleanStore).after cleanStore)).after
        ((twoDays.Create 0 cleanStore).after cleanStore)).banUntil 1 1
      = some (0 + 2 * oneDay + 3 * oneDay) ∧
    ((threeDaysFloor8.Create oneDay ((twoDays.Create 0 cleanStore).after cleanStore)).after
        ((twoDays.Create 0 cleanStore).after cleanStore)).offenceCount 1 = some (0 + 2) :=
  ⟨by decide, by decide,
    (Create_accumulates cleanStore twoDays threeDaysFloor8 0 oneDay (2 * oneDay) (3 * oneDay)
      7 8 0 (by decide) (by decide) rfl rfl rfl rfl rfl rfl (by decide) (by decide) (by decide)
      rfl rfl).2.2⟩

/-- C5 counterexample: a day difference whose nanosecond value does not fit `int64`.
User 1 is first given minus one day on floor 7 (stored day count -1, ban-until
minus one day), then the record is amended to 106751 days. The difference of
106752 days wraps in `diffDuration`, and ban-until moves far into the past
instead of forward by 106752 days. The same happens on `servingStore` for a
receiver with day count 106755. Both calls succeed. -/
theorem Create_correction_delta_wraps :
    (minusOneDay.Create 0 cleanStore).succeeded = true ∧
    (((minusOneDay.Create 0 cleanStore).after cleanStore).takePrevious 1 (some 7)).map (·.Day)
      = some (-1) ∧
    ((minusOneDay.Create 0 cleanStore).after cleanStore).banUntil 1 1 = some (-oneDay) ∧
    (longestDays.Create oneDay ((minusOneDay.Create 0 cleanStore).after cleanStore)).succeeded
      = true ∧
    ((longestDays.Create oneDay ((minusOneDay.Create 0 cleanStore).after cleanStore)).after
        ((minusOneDay.Create 0 cleanStore).after cleanStore)).banUntil 1 1
      = some (-oneDay + 106752 * oneDay - 2 ^ 64) ∧
    ((longestDays.Create oneDay ((minusOneDay.Create 0 cleanStore).after cleanStore)).after
        ((minusOneDay.Create 0 cleanStore).after cleanStore)).banUntil 1 1
      ≠ some (-oneDay + (106751 - -1) * oneDay) ∧
    (fiveDaysHugeDay.Create oneDay servingStore).succeeded = true ∧
    ((fiveDaysHugeDay.Create oneDay servingStore).after servingStore).banUntil 1 1
      = some (-9223112073709551616) ∧
    ((fiveDaysHugeDay.Create oneDay servingStore).after servingStore).banUntil 1 1
      ≠ some (3 * oneDay + (106755 - 3) * oneDay) := by
  decide

/-- C5 as amended: when a record for the receiver's user and floor exists with a
different duration or day count, the day difference lies within 106751 days
either way (the range in which its nanosecond value fits `int64`) and `Create`
succeeds, then the offence counter is unchanged, an existing ban-until entry of
the receiver's division moves by `(Day - previous Day)` days, a missing entry
becomes the previous start time plus the new duration, and the table keeps
exactly its rows (no insertion). -/
theorem Create_correction_delta (db : DB) (p prev : Punishment) (now n : Int)
    (hcount : db.offenceCount p.UserID = some n)
    (hprev : db.takePrevious p.UserID p.FloorID = some prev)
    (hdiff : prev.Duration ≠ p.Duration ∨ prev.Day ≠ p.Day)
    (hfits : -106751 ≤ p.Day - prev.Day ∧ p.Day - prev.Day ≤ 106751)
    (hok : (p.Create now db).succeeded = true) :
    ((p.Create now db).after db).offenceCount p.UserID = some n ∧
    (p.Create now db).user?.map (·.OffenceCount) = some n ∧
    (∀ t, db.banUntil p.UserID p.DivisionID = some t →
      ((p.Create now db).after db).banUntil p.UserID p.DivisionID
        = some (t + (p.Day - prev.Day) * oneDay)) ∧
    (db.banUntil p.UserID p.DivisionID = none →
      ∃ d, p.Duration = some d ∧
        ((p.Create now db).after db).banUntil p.UserID p.DivisionID
          = some (prev.StartTime + d)) ∧
    ((p.Create now db).after db).punishments.map (·.ID) = db.punishments.map (·.ID) ∧
    ((p.Create now db).after db).punishments.length = db.punishments.length := by
  obtain ⟨user, hu, hn⟩ := exists_user_of_offenceCount hcount
  cases hd : p.Duration with
  | none =>
    exfalso
    unfold Punishment.Create at hok
    simp only [DB.takeUser, hu, Option.map_some', hprev, hd] at hok
    rcases hdiff with h | h
    · have : prev.Duration.isNone = false := by
        cases hp : prev.Duration with
        | none => exact absurd (hp.trans hd.symm) h
        | some _ => rfl
      simp [durationPtrEq, this, Outcome.succeeded] at hok
    · simp [h, Outcome.succeeded] at hok
  | some d =>
    obtain ⟨db', user', hc, hrows, hu', -, -, hoc, hban, -⟩ :=
      Create_on_previous db user p prev now d hu hprev hd
    rw [hc]
    simp only [Outcome.after, Outcome.user?, Option.map_some']
    rw [banUntil_of_user hu, banUntil_of_user hu', offenceCount_of_user hu']
    refine ⟨by simp [hn], by simp [hoc, hn], ?_, ?_, ?_, ?_⟩
    · intro t ht
      simp only
      rw [hban, ht, diffDuration_of_fits hfits.1 hfits.2]
      rfl
    · intro hnone
      refine ⟨d, rfl, ?_⟩
      simp only
      rw [hban, hnone]
    · rw [hrows, List.map_map]
      apply List.map_congr_left
      intro row _
      simp only [Function.comp]
      split <;> rfl
    · rw [hrows, List.length_map]

/-- C5 as amended, at a concrete input: three days amended to five days on the same floor
moves ban-until from day 3 to day 5 and leaves the counter at 1. -/
theorem Create_correction_delta_witness :
    servingStore.banUntil 1 1 = some (3 * oneDay) ∧
    ((fiveDays.Create oneDay servingStore).after servingStore).banUntil 1 1
      = some (3 * oneDay + (5 - 3) * oneDay) ∧
    ((fiveDays.Create oneDay servingStore).after servingStore).offenceCount 1 = some 1 :=
  have h := Create_correction_delta servingStore fiveDays (storedRow 0 (3 * oneDay) 3) oneDay 1
    (by decide) (by decide) (by decide) (by decide) (by decide)
  ⟨by decide, h.2.2.1 (3 * oneDay) (by decide), h.1⟩


/-- C1 at the failing input: user 1 carries a ban for division 1 that ran out on
day 10, no punishment exists for floor 7, and three days are issued on day 100.
The call succeeds and the stored ban-until becomes day 13 (expired value plus
duration), not day 103 (`now + duration`). -/
theorem Create_extends_expired_ban :
    expiredStore.takePrevious 1 (some 7) = none ∧
    expiredStore.banUntil 1 1 = some (10 * oneDay) ∧ 10 * oneDay ≤ 100 * oneDay ∧
    (threeDays.Create (100 * oneDay) expiredStore).succeeded = true ∧
    ((threeDays.Create (100 * oneDay) expiredStore).after expiredStore).banUntil 1 1
      = some (13 * oneDay) ∧
    ((threeDays.Create (100 * oneDay) expiredStore).after expiredStore).banUntil 1 1
      ≠ some (100 * oneDay + 3 * oneDay) := by
  decide

/-- C3 at the failing input: the stored record for user 1 and floor 7 has the same
duration value and day count as the receiver, yet the call rewrites the record's
`MadeBy`, `Reason` and `DivisionID` and adds a ban-until entry for division 2. -/
theorem Create_same_duration_rewrites :
    servingStore.takePrevious 1 (some 7) = some (storedRow 0 (3 * oneDay) 3) ∧
    (storedRow 0 (3 * oneDay) 3).Duration = resentThreeDays.Duration ∧
    (storedRow 0 (3 * oneDay) 3).Day = resentThreeDays.Day ∧
    (resentThreeDays.Create oneDay servingStore).succeeded = true ∧
    ((resentThreeDays.Create oneDay servingStore).after servingStore).punishments
      = [{ storedRow 0 (3 * oneDay) 3 with MadeBy := 8, Reason := "retry", DivisionID := 2 }] ∧
    servingStore.banUntil 1 2 = none ∧
    ((resentThreeDays.Create oneDay servingStore).after servingStore).banUntil 1 2
      = some (3 * oneDay) := by
  decide

/-- C4 at the failing input: a two-day record (ban-until day 10) is amended to
twelve hours, whose day count is zero. The first call moves ban-until to day 8
and leaves the stored day count at 2; the identical second call moves it again,
to day 6. Both calls succeed. -/
theorem Create_twice_shifts_twice :
    twoDayStore.banUntil 1 1 = some (10 * oneDay) ∧
    (twelveHours.Create (9 * oneDay) twoDayStore).succeeded = true ∧
    ((twelveHours.Create (9 * oneDay) twoDayStore).after twoDayStore).banUntil 1 1
      = some (8 * oneDay) ∧
    ((twelveHours.Create (9 * oneDay) twoDayStore).after twoDayStore).punishments.map (·.Day)
      = [2] ∧
    (twelveHours.Create (9 * oneDay)
      ((twelveHours.Create (9 * oneDay) twoDayStore).after twoDayStore)).succeeded = true ∧
    ((twelveHours.Create (9 * oneDay)
      ((twelveHours.Create (9 * oneDay) twoDayStore).after twoDayStore)).after
        ((twelveHours.Create (9 * oneDay) twoDayStore).after twoDayStore)).banUntil 1 1
      = some (6 * oneDay) := by
  decide

/-- C8 counterexample: a duration of minus two days is accepted. The call succeeds,
inserts a row, raises the offence counter from 0 to 1 and moves the ban-until of
division 1 back from day 10 to day 8. -/
theorem Create_negative_duration_commits :
    minusTwoDays.Duration = some (-(2 * oneDay)) ∧
    bannedStore.banUntil 1 1 = some (10 * oneDay) ∧ bannedStore.offenceCount 1 = some 0 ∧
    (minusTwoDays.Create (5 * oneDay) bannedStore).succeeded = true ∧
    ((minusTwoDays.Create (5 * oneDay) bannedStore).after bannedStore).punishments.length
      = bannedStore.punishments.length + 1 ∧
    ((minusTwoDays.Create (5 * oneDay) bannedStore).after bannedStore).offenceCount 1
      = some 1 ∧
    ((minusTwoDays.Create (5 * oneDay) bannedStore).after bannedStore).banUntil 1 1
      = some (8 * oneDay) := by
  decide

/-- C8 as amended: `Create` does not validate the duration. A new receiver with a
zero or negative duration `d`, for an existing user and a floor free of
punishments, is processed as any new punishment: the call succeeds, the row is
inserted with end time `now + d`, the offence counter rises by one and ban-until
becomes the old entry plus `d` (or `now + d` without an entry), which is not
later than the old entry. -/
theorem Create_accepts_nonpositive (db : DB) (p : Punishment) (now d n : Int)
    (hd : p.Duration = some d) (hneg : d ≤ 0)
    (hcount : db.offenceCount p.UserID = some n)
    (hid : p.ID = 0)
    (hfree : ∀ f, p.FloorID = some f → some f ∉ db.punishments.map (·.FloorID)) :
    (p.Create now db).succeeded = true ∧
    ((p.Create now db).after db).punishments = db.punishments ++
      [{ p with ID := maxID db.punishments + 1, StartTime := now, EndTime := now + d }] ∧
    ((p.Create now db).after db).offenceCount p.UserID = some (n + 1) ∧
    ((p.Create now db).after db).banUntil p.UserID p.DivisionID
      = some ((db.banUntil p.UserID p.DivisionID).getD now + d) ∧
    (∀ t, db.banUntil p.UserID p.DivisionID = some t →
      ∃ t', ((p.Create now db).after db).banUntil p.UserID p.DivisionID = some t' ∧ t' ≤ t) := by
  obtain ⟨user, hu, hn⟩ := exists_user_of_offenceCount hcount
  obtain ⟨db', user', hc, hrows, hu', -, -, hoc, hban, -⟩ :=
    Create_new db user p now d hu hd hid hfree
  rw [hc]
  simp only [Outcome.after, Outcome.succeeded, true_and]
  rw [banUntil_of_user hu, banUntil_of_user hu', offenceCount_of_user hu']
  refine ⟨hrows, by simp [hn], hban, ?_⟩
  intro t ht
  refine ⟨t + d, ?_, by omega⟩
  simp only
  rw [hban, ht]
  rfl

/-- C8 as amended, at a concrete input: minus two days against a ban until day 10. -/
theorem Create_accepts_nonpositive_witness :
    -(2 * oneDay) ≤ 0 ∧
    (minusTwoDays.Create (5 * oneDay) bannedStore).succeeded = true ∧
    ((minusTwoDays.Create (5 * oneDay) bannedStore).after bannedStore).offenceCount 1
      = some (0 + 1) :=
  have h := Create_accepts_nonpositive bannedStore minusTwoDays (5 * oneDay) (-(2 * oneDay)) 0
    rfl (by decide) (by decide) rfl (by decide)
  ⟨by decide, h.1, h.2.2.1⟩

/-- C10 at the failing input: a receiver whose `Duration` pointer is nil, for an
existing user without a record on the floor, reaches the dereference
`*punishment.Duration` of the new-punishment branch and faults; with a record on
the floor it reaches the dereference of the correction branch and faults too. -/
theorem Create_nil_duration_faults :
    noDuration.Duration = none ∧ (cleanStore.users 1).isSome = true ∧
    cleanStore.takePrevious 1 noDuration.FloorID = none ∧
    (noDuration.Create 0 cleanStore).faulted = true ∧
    (noDuration.Create 0 cleanStore).user?.isNone = true ∧
    (servingStore.takePrevious 1 noDuration.FloorID).isSome = true ∧
    (noDuration.Create 0 servingStore).faulted = true := by
  decide


/-! ## Per-floor uniqueness -/

theorem updates_map_ID (db : DB) (q : Punishment) :
    (db.updates q).punishments.map (·.ID) = db.punishments.map (·.ID) := by
  simp only [DB.updates, List.map_map]
  apply List.map_congr_left
  intro row _
  simp only [Function.comp]
  split <;> rfl

theorem updates_map_FloorID (db : DB) (q prev : Punishment) (hpk : db.PrimaryKey)
    (hmem : prev ∈ db.punishments) (hid : q.ID = prev.ID) (hfloor : q.FloorID = prev.FloorID) :
    (db.updates q).punishments.map (·.FloorID) = db.punishments.map (·.FloorID) := by
  simp only [DB.updates, List.map_map]
  apply List.map_congr_left
  intro row hrow
  simp only [Function.comp]
  split
  · next h =>
    have hrow_eq : row = prev :=
      List.inj_on_of_nodup_map hpk hrow hmem (h.1.trans hid)
    subst hrow_eq
    simp only [Punishment.mergeNonZero, hfloor]
    split
    · rfl
    · rfl
  · rfl

theorem filterMap_eq_of_map_eq {rows rows' : List Punishment}
    (h : rows'.map (·.FloorID) = rows.map (·.FloorID)) :
    rows'.filterMap (·.FloorID) = rows.filterMap (·.FloorID) := by
  have key : ∀ l : List Punishment,
      l.filterMap (·.FloorID) = (l.map (·.FloorID)).filterMap id := by
    intro l
    rw [List.filterMap_map]
    rfl
  rw [key rows', key rows, h]

theorem create_rows {db db' : DB} {p : Punishment} (h : db.create p = .ok db') :
    ∃ q, q.FloorID = p.FloorID ∧ q.ID ∉ db.punishments.map (·.ID) ∧
      (∀ f, q.FloorID = some f → some f ∉ db.punishments.map (·.FloorID)) ∧
      db'.punishments = db.punishments ++ [q] := by
  unfold DB.create at h
  dsimp only at h
  generalize hq : (if p.ID = 0 then { p with ID := maxID db.punishments + 1 } else p) = q at h
  have hqf : q.FloorID = p.FloorID := by rw [← hq]; split <;> rfl
  by_cases h1 : q.ID ∈ db.punishments.map (·.ID)
  · rw [if_pos h1] at h; cases h
  · rw [if_neg h1] at h
    by_cases h2 : q.FloorID.isSome = true ∧ q.FloorID ∈ db.punishments.map (·.FloorID)
    · rw [if_pos h2] at h; cases h
    · rw [if_neg h2] at h
      cases h
      refine ⟨q, hqf, h1, ?_, rfl⟩
      intro f hf hmem
      exact h2 ⟨by simp [hf], hf ▸ hmem⟩

theorem Create_rows (db : DB) (p : Punishment) (now : Int) :
    ((p.Create now db).after db).punishments = db.punishments ∨
    (∃ prev q, prev ∈ db.punishments ∧ q.ID = prev.ID ∧ q.FloorID = prev.FloorID ∧
      ((p.Create now db).after db).punishments = (db.updates q).punishments) ∨
    (∃ q, q.FloorID = p.FloorID ∧ q.ID ∉ db.punishments.map (·.ID) ∧
      (∀ f, q.FloorID = some f → some f ∉ db.punishments.map (·.FloorID)) ∧
      ((p.Create now db).after db).punishments = db.punishments ++ [q]) := by
  unfold Punishment.Create
  cases db.takeUser p.UserID with
  | none => exact Or.inl rfl
  | some user =>
    simp only
    cases hprev : db.takePrevious user.ID p.FloorID with
    | some prev =>
      simp only
      split
      · exact Or.inl rfl
      · cases p.Duration with
        | none => exact Or.inl rfl
        | some d =>
          refine Or.inr (Or.inl ⟨prev, _, List.mem_of_find?_eq_some hprev, ?_, ?_, rfl⟩)
          · rfl
          · rfl
    | none =>
      simp only
      cases p.Duration with
      | none => exact Or.inl rfl
      | some d =>
        simp only
        split
        · exact Or.inl rfl
        · next db' hc =>
          obtain ⟨q, hq1, hq2, hq3, hq4⟩ := create_rows hc
          exact Or.inr (Or.inr ⟨q, hq1, hq2, hq3, hq4⟩)

/-- C6: on a store whose punishment table has a primary key and at most one row
per floor, any call of `Create` (any receiver, any user) leaves a table with at
most one row per floor and an intact primary key; and when some row already
references the receiver's floor, the call adds no row. -/
theorem Create_keeps_floor_unique (db : DB) (p : Punishment) (now : Int)
    (hpk : db.PrimaryKey) (hfu : db.FloorUnique) :
    ((p.Create now db).after db).FloorUnique ∧
    ((p.Create now db).after db).PrimaryKey ∧
    (∀ f, p.FloorID = some f → some f ∈ db.punishments.map (·.FloorID) →
      ((p.Create now db).after db).punishments.length = db.punishments.length) := by
  unfold DB.FloorUnique DB.PrimaryKey at *
  rcases Create_rows db p now with h | ⟨prev, q, hmem, hid, hfl, h⟩ | ⟨q, hqf, hqid, hfree, h⟩
  · rw [h]; exact ⟨hfu, hpk, fun _ _ _ => rfl⟩
  · rw [h]
    refine ⟨?_, ?_, ?_⟩
    · rw [filterMap_eq_of_map_eq (updates_map_FloorID db q prev hpk hmem hid hfl)]
      exact hfu
    · rw [updates_map_ID]; exact hpk
    · intro _ _ _
      simp [DB.updates]
  · rw [h]
    refine ⟨?_, ?_, ?_⟩
    · rw [List.filterMap_append]
      cases hf : q.FloorID with
      | none => simpa [List.filterMap_cons, hf] using hfu
      | some f =>
        simp only [List.filterMap_cons, hf, List.filterMap_nil]
        rw [List.nodup_append]
        refine ⟨hfu, List.nodup_singleton f, ?_⟩
        intro a ha hb
        rw [List.mem_singleton] at hb
        subst hb
        obtain ⟨row, hrow, hrf⟩ := List.mem_filterMap.mp ha
        exact hfree a hf (List.mem_map.mpr ⟨row, hrow, hrf⟩)
    · rw [List.map_append, List.nodup_append]
      refine ⟨hpk, List.nodup_singleton _, ?_⟩
      intro a ha hb
      simp only [List.map_cons, List.map_nil, List.mem_singleton] at hb
      subst hb
      exact hqid ha
    · intro f hf hmem
      exact absurd hmem (hfree f (hqf.trans hf))

/-- C6 at a concrete input: floor 7 already carries a punishment of user 1; three
days for user 2 on the same floor are refused and the table keeps its single row. -/
theorem Create_keeps_floor_unique_witness :
    otherUserStore.PrimaryKey ∧ otherUserStore.FloorUnique ∧
    ((threeDaysUser2.Create oneDay otherUserStore).after otherUserStore).FloorUnique ∧
    ((threeDaysUser2.Create oneDay otherUserStore).after otherUserStore).punishments.length
      = otherUserStore.punishments.length :=
  have hpk : otherUserStore.PrimaryKey := by unfold DB.PrimaryKey; decide
  have hfu : otherUserStore.FloorUnique := by unfold DB.FloorUnique; decide
  have h := Create_keeps_floor_unique otherUserStore threeDaysUser2 oneDay hpk hfu
  ⟨hpk, hfu, h.1, h.2.2 7 rfl (by decide)⟩


/-! ## Tag temperature -/

theorem temperatureOf_eq_none {table : List Tag} {n : String} :
    temperatureOf table n = none ↔ n ∉ table.map (·.Name) := by
  simp only [temperatureOf, Option.map_eq_none', List.find?_eq_none, List.mem_map, not_exists,
    not_and, beq_iff_eq]

theorem temperatureOf_append_of_mem {table extra : List Tag} {n : String}
    (h : n ∈ table.map (·.Name)) :
    temperatureOf (table ++ extra) n = temperatureOf table n := by
  cases hfind : temperatureOf table n with
  | none => exact absurd h (temperatureOf_eq_none.mp hfind)
  | some v =>
    simp only [temperatureOf, List.find?_append] at hfind ⊢
    cases hf : table.find? (fun t => t.Name == n) with
    | none => simp [hf] at hfind
    | some t => simpa [hf] using hfind

theorem temperatureOf_append_of_not_mem {table extra : List Tag} {n : String}
    (h : n ∉ table.map (·.Name)) :
    temperatureOf (table ++ extra) n = temperatureOf extra n := by
  have hnone := temperatureOf_eq_none.mpr h
  simp only [temperatureOf, Option.map_eq_none'] at hnone
  simp [temperatureOf, List.find?_append, hnone]

theorem firstOrCreate_eq (table : List Tag) (name : String) (hname : name ≠ "") :
    firstOrCreate table name =
      if name ∈ table.map (·.Name) then
        (table, { Name := name, Temperature := (temperatureOf table name).getD 0 })
      else
        (table ++ [{ Name := name, Temperature := 0 }], { Name := name, Temperature := 0 }) := by
  have hpred : (fun t : Tag => name == "" || t.Name == name) = fun t : Tag => t.Name == name := by
    funext t
    simp [hname]
  unfold firstOrCreate
  rw [hpred]
  cases hfind : table.find? (fun t => t.Name == name) with
  | none =>
    have : name ∉ table.map (·.Name) :=
      temperatureOf_eq_none.mp (by simp [temperatureOf, hfind])
    simp [this]
  | some t =>
    have hn : t.Name = name := by simpa using List.find?_some hfind
    have hmem : name ∈ table.map (·.Name) :=
      List.mem_map.mpr ⟨t, List.mem_of_find?_eq_some hfind, hn⟩
    simp only [hmem, if_true, temperatureOf, hfind, Option.map_some', Option.getD_some]
    cases t
    simp only at hn
    subst hn
    rfl

theorem bindTags_spec (names : List String) :
    ∀ table : List Tag, "" ∉ names →
      (bindTags table names).2
          = names.map (fun n => { Name := n, Temperature := (temperatureOf table n).getD 0 + 1 }) ∧
      (∀ n ∈ names, n ∈ (bindTags table names).1.map (·.Name)) ∧
      (∀ n ∈ table.map (·.Name), n ∈ (bindTags table names).1.map (·.Name)) ∧
      (∀ m, (temperatureOf (bindTags table names).1 m).getD 0 = (temperatureOf table m).getD 0) ∧
      (∀ m, m ∉ names → temperatureOf (bindTags table names).1 m = temperatureOf table m) ∧
      ((table.map (·.Name)).Nodup → ((bindTags table names).1.map (·.Name)).Nodup) := by
  induction names with
  | nil =>
    intro table _
    exact ⟨rfl, fun _ h => absurd h (List.not_mem_nil _), fun _ h => h, fun _ => rfl,
      fun _ _ => rfl, fun h => h⟩
  | cons name rest ih =>
    intro table hne
    have hname : name ≠ "" := fun h => hne (h ▸ List.mem_cons_self _ _)
    have hrest : "" ∉ rest := fun h => hne (List.mem_cons_of_mem _ h)
    have hfoc := firstOrCreate_eq table name hname
    -- facts about the table after loading or creating `name`
    have hstep : name ∈ (firstOrCreate table name).1.map (·.Name) ∧
        (∀ n ∈ table.map (·.Name), n ∈ (firstOrCreate table name).1.map (·.Name)) ∧
        (∀ m, (temperatureOf (firstOrCreate table name).1 m).getD 0
          = (temperatureOf table m).getD 0) ∧
        (∀ m, m ≠ name → temperatureOf (firstOrCreate table name).1 m = temperatureOf table m) ∧
        ((table.map (·.Name)).Nodup → ((firstOrCreate table name).1.map (·.Name)).Nodup) ∧
        (firstOrCreate table name).2
          = { Name := name, Temperature := (temperatureOf table name).getD 0 } := by
      rw [hfoc]
      by_cases hmem : name ∈ table.map (·.Name)
      · rw [if_pos hmem]
        exact ⟨hmem, fun _ h => h, fun _ => rfl, fun _ _ => rfl, fun h => h, rfl⟩
      · rw [if_neg hmem]
        have hnone : temperatureOf table name = none := temperatureOf_eq_none.mpr hmem
        refine ⟨by simp, fun n h => by simp only [List.map_append, List.mem_append]; exact Or.inl h,
          ?_, ?_, ?_, by simp [hnone]⟩
        · intro m
          by_cases hm : m ∈ table.map (·.Name)
          · rw [temperatureOf_append_of_mem hm]
          · rw [temperatureOf_append_of_not_mem hm, temperatureOf_eq_none.mpr hm]
            by_cases hmn : name = m
            · simp [temperatureOf, hmn]
            · simp [temperatureOf, hmn]
        · intro m hm
          by_cases hm' : m ∈ table.map (·.Name)
          · rw [temperatureOf_append_of_mem hm']
          · rw [temperatureOf_append_of_not_mem hm', temperatureOf_eq_none.mpr hm']
            have : ¬ name = m := fun h => hm h.symm
            simp [temperatureOf, this]
        · intro hnd
          rw [List.map_append, List.nodup_append]
          refine ⟨hnd, by simp, ?_⟩
          intro a ha hb
          simp only [List.map_cons, List.map_nil, List.mem_singleton] at hb
          exact hmem (hb ▸ ha)
    obtain ⟨hs1, hs2, hs3, hs4, hs5, hs6⟩ := hstep
    obtain ⟨ih1, ih2, ih3, ih4, ih5, ih6⟩ := ih (firstOrCreate table name).1 hrest
    simp only [bindTags]
    refine ⟨?_, ?_, ?_, ?_, ?_, ?_⟩
    · rw [ih1, hs6]
      simp only [List.map_cons, List.cons.injEq, true_and]
      apply List.map_congr_left
      intro n _
      rw [hs3 n]
    · intro n hn
      rcases List.mem_cons.mp hn with rfl | hn
      · exact ih3 _ hs1
      · exact ih2 n hn
    · intro n hn
      exact ih3 n (hs2 n hn)
    · intro m
      rw [ih4 m, hs3 m]
    · intro m hm
      have hm1 : m ≠ name := fun h => hm (h ▸ List.mem_cons_self _ _)
      have hm2 : m ∉ rest := fun h => hm (List.mem_cons_of_mem _ h)
      rw [ih5 m hm2, hs4 m hm1]
    · intro hnd
      exact ih6 (hs5 hnd)

theorem upsertTag_of_mem (table : List Tag) (tag : Tag) (h : tag.Name ∈ table.map (·.Name)) :
    (upsertTag table tag).map (·.Name) = table.map (·.Name) ∧
    ∀ n, temperatureOf (upsertTag table tag) n
      = if n = tag.Name then some tag.Temperature else temperatureOf table n := by
  have hany : table.any (fun t => t.Name == tag.Name) = true := by
    obtain ⟨t, ht, hn⟩ := List.mem_map.mp h
    exact List.any_eq_true.mpr ⟨t, ht, by simpa using hn⟩
  unfold upsertTag
  rw [if_pos hany]
  constructor
  · rw [List.map_map]
    apply List.map_congr_left
    intro t _
    simp only [Function.comp]
    split
    · next heq => exact heq.symm
    · rfl
  · intro n
    have hpred : ((fun t : Tag => t.Name == n) ∘ fun t : Tag => if t.Name = tag.Name then tag else t)
        = fun t : Tag => t.Name == n := by
      funext t
      simp only [Function.comp]
      split
      · next heq => rw [heq]
      · rfl
    simp only [temperatureOf, List.find?_map, hpred, Option.map_map]
    cases hfind : table.find? (fun t => t.Name == n) with
    | none =>
      have hn : n ∉ table.map (·.Name) :=
        temperatureOf_eq_none.mp (by simp [temperatureOf, hfind])
      have : n ≠ tag.Name := fun heq => hn (heq ▸ h)
      simp [this]
    | some t =>
      have hn : t.Name = n := by simpa using List.find?_some hfind
      simp only [Option.map_some', Function.comp, hn]
      by_cases heq : n = tag.Name
      · simp [heq]
      · simp [heq]

theorem foldl_upsertTag_spec (v : String → Int) (tags : List Tag) :
    ∀ table : List Tag, (∀ tag ∈ tags, tag.Name ∈ table.map (·.Name)) →
      (∀ tag ∈ tags, tag.Temperature = v tag.Name) →
      (tags.foldl upsertTag table).map (·.Name) = table.map (·.Name) ∧
      ∀ n, temperatureOf (tags.foldl upsertTag table) n
        = if n ∈ tags.map (·.Name) then some (v n) else temperatureOf table n := by
  induction tags with
  | nil => intro table _ _; exact ⟨rfl, fun n => by simp⟩
  | cons tag rest ih =>
    intro table hmem hval
    obtain ⟨hnames, htemp⟩ := upsertTag_of_mem table tag (hmem tag (List.mem_cons_self _ _))
    obtain ⟨ih1, ih2⟩ := ih (upsertTag table tag)
      (fun t ht => by rw [hnames]; exact hmem t (List.mem_cons_of_mem _ ht))
      (fun t ht => hval t (List.mem_cons_of_mem _ ht))
    rw [List.foldl_cons]
    refine ⟨ih1.trans hnames, ?_⟩
    intro n
    rw [ih2 n, htemp n]
    by_cases hrest : n ∈ rest.map (·.Name)
    · simp [List.map_cons, hrest]
    · by_cases heq : n = tag.Name
      · have := hval tag (List.mem_cons_self _ _)
        simp [List.map_cons, heq, this]
      · simp only [List.map_cons, List.mem_cons, hrest, heq, or_self, if_false]

/-- Tag temperature per hole, for names that are not empty: on a table with one
row per name, `CreateHole` leaves one row per name, gives every listed name a row
whose temperature is the old one (0 when the tag was absent) plus exactly 1,
however often the name occurs in the list, and leaves every other name as it
was (absent names stay absent). -/
theorem CreateHole_temperature (table : List Tag) (names : List String)
    (hnames : "" ∉ names) (huniq : (table.map (·.Name)).Nodup) :
    ((CreateHole table names).map (·.Name)).Nodup ∧
    (∀ n ∈ names, temperatureOf (CreateHole table names) n
      = some ((temperatureOf table n).getD 0 + 1)) ∧
    (∀ n, n ∉ names → temperatureOf (CreateHole table names) n = temperatureOf table n) := by
  obtain ⟨h1, h2, -, -, h5, h6⟩ := bindTags_spec names table hnames
  have hmemNames : ∀ tag ∈ (bindTags table names).2, tag.Name ∈ names := by
    intro tag htag
    rw [h1] at htag
    obtain ⟨n, hn, rfl⟩ := List.mem_map.mp htag
    exact hn
  obtain ⟨f1, f2⟩ := foldl_upsertTag_spec (fun n => (temperatureOf table n).getD 0 + 1)
    (bindTags table names).2 (bindTags table names).1
    (fun tag htag => h2 _ (hmemNames tag htag))
    (by
      intro tag htag
      rw [h1] at htag
      obtain ⟨n, _, rfl⟩ := List.mem_map.mp htag
      rfl)
  have hnamesEq : (bindTags table names).2.map (·.Name) = names := by
    rw [h1, List.map_map]
    exact List.map_id' _
  unfold CreateHole
  simp only
  refine ⟨by rw [f1]; exact h6 huniq, ?_, ?_⟩
  · intro n hn
    rw [f2 n, hnamesEq, if_pos hn]
  · intro n hn
    rw [f2 n, hnamesEq, if_neg hn, h5 n hn]

/-- Tag temperature at a concrete input: `["life", "life", "study"]` on a table
holding "life" at 5 and "old" at 2. -/
theorem CreateHole_temperature_witness :
    "" ∉ ["life", "life", "study"] ∧
    temperatureOf (CreateHole [⟨"life", 5⟩, ⟨"old", 2⟩] ["life", "life", "study"]) "life"
      = some (5 + 1) ∧
    temperatureOf (CreateHole [⟨"life", 5⟩, ⟨"old", 2⟩] ["life", "life", "study"]) "study"
      = some (0 + 1) ∧
    temperatureOf (CreateHole [⟨"life", 5⟩, ⟨"old", 2⟩] ["life", "life", "study"]) "old"
      = some 2 :=
  have h := CreateHole_temperature [⟨"life", 5⟩, ⟨"old", 2⟩] ["life", "life", "study"]
    (by decide) (by decide)
  ⟨by decide, h.2.1 "life" (by decide), h.2.1 "study" (by decide), h.2.2 "old" (by decide)⟩

/-- C7 at the failing input: the one-name list `[""]` on a table that holds "life"
at 5 and "old" at 2. No tag named "" is created, and "life", which the list does
not name, is raised to 6. -/
theorem CreateHole_empty_name_hits_first_tag :
    CreateHole [⟨"life", 5⟩, ⟨"old", 2⟩] [""] = [⟨"life", 6⟩, ⟨"old", 2⟩] ∧
    temperatureOf (CreateHole [⟨"life", 5⟩, ⟨"old", 2⟩] [""]) "" = none ∧
    temperatureOf [⟨"life", 5⟩, ⟨"old", 2⟩] "life" = some 5 ∧
    temperatureOf (CreateHole [⟨"life", 5⟩, ⟨"old", 2⟩] [""]) "life" = some 6 := by
  decide


/-! ## Resending a receiver -/

theorem floor_free_of_succeeded {db : DB} {p : Punishment} {now d f : Int} {user : User}
    (hu : db.users p.UserID = some user)
    (hprev : db.takePrevious p.UserID p.FloorID = none)
    (hd : p.Duration = some d) (hf : p.FloorID = some f)
    (hok : (p.Create now db).succeeded = true) :
    some f ∉ db.punishments.map (·.FloorID) := by
  intro hmem
  unfold Punishment.Create at hok
  simp only [DB.takeUser, hu, Option.map_some', hprev, hd] at hok
  have hfail : ∀ q : Punishment, q.FloorID = some f → db.create q = .error .ErrDuplicatedKey := by
    intro q hq
    unfold DB.create
    dsimp only
    have hq' : (if q.ID = 0 then { q with ID := maxID db.punishments + 1 } else q).FloorID
        = some f := by
      split <;> exact hq
    generalize (if q.ID = 0 then { q with ID := maxID db.punishments + 1 } else q) = q' at hq' ⊢
    by_cases h1 : q'.ID ∈ db.punishments.map (·.ID)
    · rw [if_pos h1]
    · rw [if_neg h1, if_pos ⟨by simp [hq'], hq' ▸ hmem⟩]
  rw [hfail { p with StartTime := now, EndTime := now + d, Duration := some d } hf] at hok
  simp [Outcome.succeeded] at hok

theorem takePrevious_append_new {db db1 : DB} {row : Punishment} {userID f : Int}
    (hrows : db1.punishments = db.punishments ++ [row])
    (hprev : db.takePrevious userID (some f) = none)
    (hdel : row.DeletedAt = false) (hu : row.UserID = userID) (hfl : row.FloorID = some f) :
    db1.takePrevious userID (some f) = some row := by
  unfold DB.takePrevious at hprev ⊢
  rw [hrows, List.find?_append, hprev]
  simp [hdel, hu, hfl]

theorem mergeNonZero_same (row p : Punishment) (d : Int)
    (hD : row.Duration = some d) (hDay : row.Day = p.Day)
    (hEnd : row.EndTime = row.StartTime + d)
    (hR : p.Reason ≠ "" → row.Reason = p.Reason)
    (hM : p.MadeBy ≠ 0 → row.MadeBy = p.MadeBy)
    (hDiv : p.DivisionID ≠ 0 → row.DivisionID = p.DivisionID) :
    row.mergeNonZero { row with
      Duration := some d, Day := p.Day, EndTime := row.StartTime + d,
      Reason := p.Reason, MadeBy := p.MadeBy, DivisionID := p.DivisionID } = row := by
  cases row
  simp only at hD hDay hEnd hR hM hDiv
  simp only [Punishment.mergeNonZero, Punishment.mk.injEq, true_and]
  refine ⟨hEnd.symm, ?_, ?_, ?_, ?_, ?_, ?_, ?_⟩
  · simp [hD]
  · split
    · rfl
    · exact hDay.symm
  · split <;> rfl
  · split
    · rfl
    · next h => exact (hM h).symm
  · split <;> rfl
  · split
    · rfl
    · next h => exact (hDiv h).symm
  · split
    · rfl
    · next h => exact (hR h).symm

theorem find?_map_of_preserved {rows : List Punishment} {g : Punishment → Punishment}
    {pred : Punishment → Bool} (h : ∀ r ∈ rows, pred (g r) = pred r) :
    (rows.map g).find? pred = (rows.find? pred).map g := by
  induction rows with
  | nil => rfl
  | cons a rest ih =>
    have ha := h a (List.mem_cons_self _ _)
    have ih' := ih (fun r hr => h r (List.mem_cons_of_mem _ hr))
    simp only [List.map_cons, List.find?_cons, ha]
    cases pred a with
    | true => rfl
    | false => exact ih'

theorem takePrevious_updates {db : DB} {q prev : Punishment} {userID : Int}
    {floorID : Option Int} (hpk : db.PrimaryKey)
    (hprev : db.takePrevious userID floorID = some prev)
    (hid : q.ID = prev.ID) (hfloor : q.FloorID = prev.FloorID) (huser : q.UserID = prev.UserID) :
    (db.updates q).takePrevious userID floorID = some (prev.mergeNonZero q) := by
  have hmem : prev ∈ db.punishments := List.mem_of_find?_eq_some hprev
  have hpred := List.find?_some hprev
  have hdel : prev.DeletedAt = false := by
    simp only [Bool.and_eq_true, Bool.not_eq_true'] at hpred
    exact hpred.1.1.1
  unfold DB.takePrevious at hprev ⊢
  unfold DB.updates
  simp only
  rw [find?_map_of_preserved, hprev, Option.map_some', if_pos ⟨hid.symm, hdel⟩]
  intro r hr
  split
  · next h =>
    have hr_eq : r = prev := List.inj_on_of_nodup_map hpk hr hmem (h.1.trans hid)
    subst hr_eq
    simp only [Punishment.mergeNonZero, huser, hfloor]
    congr 2
    · split <;> rfl
    · split <;> rfl
  · rfl

theorem Create_keeps_primary_key (db : DB) (p : Punishment) (now : Int) (hpk : db.PrimaryKey) :
    ((p.Create now db).after db).PrimaryKey := by
  unfold DB.PrimaryKey at *
  rcases Create_rows db p now with h | ⟨prev, q, _, _, _, h⟩ | ⟨q, _, hqid, _, h⟩
  · rw [h]; exact hpk
  · rw [h, updates_map_ID]; exact hpk
  · rw [h, List.map_append, List.nodup_append]
    refine ⟨hpk, List.nodup_singleton _, ?_⟩
    intro a ha hb
    simp only [List.map_cons, List.map_nil, List.mem_singleton] at hb
    subst hb
    exact hqid ha

theorem Create_on_matching_row (db : DB) (user : User) (p row : Punishment) (now d t : Int)
    (hpk : db.PrimaryKey) (hu : db.users p.UserID = some user)
    (hprev : db.takePrevious p.UserID p.FloorID = some row)
    (hd : p.Duration = some d)
    (hD : row.Duration = some d) (hDay : row.Day = p.Day)
    (hEnd : row.EndTime = row.StartTime + d)
    (hR : p.Reason ≠ "" → row.Reason = p.Reason)
    (hM : p.MadeBy ≠ 0 → row.MadeBy = p.MadeBy)
    (hDiv : p.DivisionID ≠ 0 → row.DivisionID = p.DivisionID)
    (hban : user.BanDivision p.DivisionID = some t) :
    (p.Create now db).succeeded = true ∧
    ((p.Create now db).after db).punishments = db.punishments ∧
    (∀ i div, ((p.Create now db).after db).banUntil i div = db.banUntil i div) ∧
    (∀ i, ((p.Create now db).after db).offenceCount i = db.offenceCount i) := by
  obtain ⟨db', user', hc, hrows, hu', hothers, -, hoc, hban', hdivs⟩ :=
    Create_on_previous db user p row now d hu hprev hd
  have hmem : row ∈ db.punishments := List.mem_of_find?_eq_some hprev
  rw [hc]
  simp only [Outcome.after, Outcome.succeeded, true_and]
  have hbanAll : ∀ div, user'.BanDivision div = user.BanDivision div := by
    intro div
    by_cases hdiv : div = p.DivisionID
    · subst hdiv
      rw [hban', hban, hDay, diffDuration_self]
      simp
    · exact hdivs div hdiv
  refine ⟨?_, ?_, ?_⟩
  · rw [hrows]
    conv_rhs => rw [← List.map_id db.punishments]
    apply List.map_congr_left
    intro r hr
    split
    · next h =>
      have hr_eq : r = row := List.inj_on_of_nodup_map hpk hr hmem h.1
      subst hr_eq
      exact mergeNonZero_same r p d hD hDay hEnd hR hM hDiv
    · rfl
  · intro i div
    by_cases hi : i = p.UserID
    · subst hi
      rw [banUntil_of_user hu, banUntil_of_user hu']
      exact hbanAll div
    · simp only [DB.banUntil, hothers i hi]
  · intro i
    by_cases hi : i = p.UserID
    · subst hi
      rw [offenceCount_of_user hu, offenceCount_of_user hu']
    · simp only [DB.offenceCount, hothers i hi]

theorem takePrevious_congr (db db' : DB) (h : db'.punishments = db.punishments)
    (userID : Int) (floorID : Option Int) :
    db'.takePrevious userID floorID = db.takePrevious userID floorID := by
  unfold DB.takePrevious
  rw [h]

/-- Resending a receiver: after a successful `Create` of a new receiver with a
floor and a duration, whose day count is not zero or equals the stored one, the
same receiver issued again (at any later time) succeeds and changes neither the
punishment rows nor any ban-until entry nor any offence counter. -/
theorem Create_resend_noop (db : DB) (p : Punishment) (now now2 d f : Int)
    (hpk : db.PrimaryKey)
    (hd : p.Duration = some d) (hf : p.FloorID = some f)
    (hid : p.ID = 0) (hdel : p.DeletedAt = false)
    (hday : p.Day ≠ 0 ∨
      ∀ prev, db.takePrevious p.UserID p.FloorID = some prev → prev.Day = p.Day)
    (hok : (p.Create now db).succeeded = true) :
    (p.Create now2 ((p.Create now db).after db)).succeeded = true ∧
    ((p.Create now2 ((p.Create now db).after db)).after ((p.Create now db).after db)).punishments
      = ((p.Create now db).after db).punishments ∧
    (∀ i div,
      ((p.Create now2 ((p.Create now db).after db)).after ((p.Create now db).after db)).banUntil
        i div = ((p.Create now db).after db).banUntil i div) ∧
    (∀ i,
      ((p.Create now2 ((p.Create now db).after db)).after
        ((p.Create now db).after db)).offenceCount i
        = ((p.Create now db).after db).offenceCount i) := by
  have hpk1 := Create_keeps_primary_key db p now hpk
  cases hu : db.users p.UserID with
  | none =>
    exfalso
    unfold Punishment.Create at hok
    simp [DB.takeUser, hu, Outcome.succeeded] at hok
  | some user =>
    cases hprev : db.takePrevious p.UserID p.FloorID with
    | none =>
      have hfree := floor_free_of_succeeded hu hprev hd hf hok
      obtain ⟨db1, u1, hc1, hrows1, hu1, -, -, -, hban1, -⟩ :=
        Create_new db user p now d hu hd hid
          (by intro g hg; rw [hf] at hg; cases hg; exact hfree)
      rw [hc1] at hpk1 ⊢
      simp only [Outcome.after] at hpk1 ⊢
      rw [hf] at hprev
      have hprev1 := takePrevious_append_new hrows1 hprev hdel rfl hf
      rw [← hf] at hprev1
      exact Create_on_matching_row db1 _ p _ now2 d _ hpk1 hu1 hprev1 hd hd rfl rfl
        (fun _ => rfl) (fun _ => rfl) (fun _ => rfl) hban1
    | some prev =>
      obtain ⟨db1, u1, hc1, hrows1, hu1, -, -, -, hban1, -⟩ :=
        Create_on_previous db user p prev now d hu hprev hd
      rw [hc1] at hpk1 ⊢
      simp only [Outcome.after] at hpk1 ⊢
      have hprev1 : db1.takePrevious p.UserID p.FloorID
          = some (prev.mergeNonZero { prev with
              Duration := some d, Day := p.Day, EndTime := prev.StartTime + d,
              Reason := p.Reason, MadeBy := p.MadeBy, DivisionID := p.DivisionID }) :=
        (takePrevious_congr (db.updates { prev with
              Duration := some d, Day := p.Day, EndTime := prev.StartTime + d,
              Reason := p.Reason, MadeBy := p.MadeBy, DivisionID := p.DivisionID })
            db1 hrows1 _ _).trans
          (takePrevious_updates hpk hprev rfl rfl rfl)
      have hDay : (if p.Day = 0 then prev.Day else p.Day) = p.Day := by
        rcases hday with h | h
        · rw [if_neg h]
        · split
          · exact h prev hprev
          · rfl
      refine Create_on_matching_row db1 _ p _ now2 d _ hpk1 hu1 hprev1 hd ?_ ?_ ?_ ?_ ?_ ?_ hban1
      · simp [Punishment.mergeNonZero]
      · simpa [Punishment.mergeNonZero] using hDay
      · simp [Punishment.mergeNonZero]
      · intro h; simp [Punishment.mergeNonZero, h]
      · intro h; simp [Punishment.mergeNonZero, h]
      · intro h; simp [Punishment.mergeNonZero, h]

/-- Resending at a concrete input: three days on floor 7 issued twice. -/
theorem Create_resend_noop_witness :
    threeDays.Day ≠ 0 ∧
    (threeDays.Create oneDay ((threeDays.Create 0 cleanStore).after cleanStore)).succeeded
      = true ∧
    ((threeDays.Create oneDay ((threeDays.Create 0 cleanStore).after cleanStore)).after
      ((threeDays.Create 0 cleanStore).after cleanStore)).banUntil 1 1
      = ((threeDays.Create 0 cleanStore).after cleanStore).banUntil 1 1 :=
  have h := Create_resend_noop cleanStore threeDays 0 oneDay (3 * oneDay) 7
    (by unfold DB.PrimaryKey; decide) rfl rfl rfl rfl (Or.inl (by decide)) (by decide)
  ⟨by decide, h.1, h.2.2.1 1 1⟩

end Treehole
